import Mathlib

/-
  Verification of the layer/undo/compile core of `src/script.js`
  (p5.js PaintCoder).

  The JavaScript core is shallowly embedded: the mutable `state` object
  becomes the structure `PaintState`, each mutating function becomes a
  pure state-transition function with the same name, and the canvas /
  image-codec browser APIs (which are not part of the repository source)
  are modelled from the spec where noted.
-/

namespace PaintCoder

/-- An RGBA pixel value; each channel is an 8-bit value 0..255, as read
back by `getImageData`. -/
structure RGBA where
  r : Nat
  g : Nat
  b : Nat
  a : Nat
deriving Repr, DecidableEq

/-- The fully transparent black that a freshly created canvas holds. -/
def transparentPixel : RGBA := ⟨0, 0, 0, 0⟩

/-- Opaque white: the fill of the very first layer (`CONFIG.bgColor`,
line 173-174) and of the flatten base (line 512-513). -/
def whitePixel : RGBA := ⟨255, 255, 255, 255⟩

/-- A layer's raster surface: pixel contents addressed by (x, y). -/
abbrev Surface : Type := Nat → Nat → RGBA

/-- A blank, fully transparent surface (a freshly created canvas). -/
def blankSurface : Surface := fun _ _ => transparentPixel

/-- A surface filled with opaque white. -/
def whiteSurface : Surface := fun _ _ => whitePixel

/-- Modelled from the spec: the canvas 2D `source-over` blend used by
`drawImage` (a browser API, not repository code; spec section 4.2 says
"each layer's own alpha channel governing blending"). Standard
source-over on straight-alpha 0..255 channels with integer rounding.
The claims only exercise it at the fully opaque / fully transparent
extremes, where every rounding convention agrees. -/
def blend (dst src : RGBA) : RGBA :=
  let outA := src.a + dst.a * (255 - src.a) / 255
  if outA = 0 then transparentPixel
  else
    ⟨(src.r * src.a + dst.r * dst.a * (255 - src.a) / 255) / outA,
     (src.g * src.a + dst.g * dst.a * (255 - src.a) / 255) / outA,
     (src.b * src.a + dst.b * dst.a * (255 - src.a) / 255) / outA,
     outA⟩

/-- One layer of the stack: `{ id, canvas/ctx, visible, name }`
(line 179); the canvas+ctx pair is the `surface`. -/
structure Layer where
  id : Nat
  name : String
  visible : Bool
  surface : Surface

/-- Placeholder used to keep list indexing total; every theorem that
relies on an index shows it is in range, so this default is never the
value actually read on the paths the source can take. -/
def defaultLayer : Layer := ⟨0, "", true, blankSurface⟩

/-- One undo-history record: `{ layerId, dataURL }` (lines 423-426).
Modelled from the spec: `canvas.toDataURL` / image decode is a browser
codec with the round-trip law `decode(encode(s)) = s` (spec section 4.1
and 8), so a stored snapshot is represented by the surface contents it
encodes. -/
structure HistoryEntry where
  layerId : Nat
  dataURL : Surface

/-- The mutable `state` object of the script (lines 59-79), restricted
to the core fields the claims are about. `historyStep` is an `Int`
because the script initialises it to `-1`. -/
structure PaintState where
  layers : List Layer
  activeLayerId : Option Nat
  nextLayerId : Nat
  history : List HistoryEntry
  historyStep : Int
  maxHistory : Nat

/-- The initial `state` literal (lines 59-79), before `init()` runs. -/
def emptyState : PaintState :=
  { layers := []
    activeLayerId := none
    nextLayerId := 1
    history := []
    historyStep := -1
    maxHistory := 20 }

/-- JavaScript `Array.prototype.findIndex`: the index of the first
element satisfying the predicate, `none` standing for the `-1`
sentinel. -/
def findIndex {α : Type} (p : α → Bool) : List α → Option Nat
  | [] => none
  | a :: as => if p a then some 0 else (findIndex p as).map (fun i => i + 1)

/-- `setActiveLayer(id)` (lines 187-190); `renderLayerList` is DOM-only. -/
def setActiveLayer (s : PaintState) (id : Nat) : PaintState :=
  { s with activeLayerId := some id }

/-- Flip the `visible` flag of the first layer whose id matches, exactly
as `state.layers.find(...)` followed by in-place mutation does
(lines 192-199). -/
def toggleFirst : List Layer → Nat → List Layer
  | [], _ => []
  | l :: ls, id =>
      if l.id == id then { l with visible := !l.visible } :: ls
      else l :: toggleFirst ls id

/-- `toggleLayerVisibility(id)` (lines 192-199); the `canvas.style`
update is DOM-only. -/
def toggleLayerVisibility (s : PaintState) (id : Nat) : PaintState :=
  { s with layers := toggleFirst s.layers id }

/-- `deleteLayer(id)` (lines 201-218) together with what it reports to
its caller. In the source every path ends in a bare `return;` or falls
off the end of the function: it never throws, never alerts, and
produces no status value, and its only caller (the trash-button click
handler, line 246-249) ignores the result. The `Bool` component is
"a blocked-action condition was reported to the caller", and is
therefore `false` on every path. -/
def deleteLayerRun (s : PaintState) (id : Nat) : PaintState × Bool :=
  if s.layers.length ≤ 1 then (s, false)
  else
    match findIndex (fun l => l.id == id) s.layers with
    | none => (s, false)
    | some idx =>
        let newLayers := s.layers.eraseIdx idx
        if s.activeLayerId = some id then
          -- `Math.max(0, idx - 1)` is truncated subtraction on Nat
          (setActiveLayer { s with layers := newLayers }
            ((newLayers.getD (idx - 1) defaultLayer).id), false)
        else
          ({ s with layers := newLayers }, false)

/-- The state transition of `deleteLayer(id)`. -/
def deleteLayer (s : PaintState) (id : Nat) : PaintState :=
  (deleteLayerRun s id).1

/-- The branch-trimming step of `saveHistoryState` (lines 419-421):
`state.history = state.history.slice(0, state.historyStep + 1)` when
the cursor is not at the end. For every reachable cursor value
(`historyStep ≥ -1`), `(historyStep + 1).toNat` coincides with the
JavaScript `slice` bound. -/
def trimHistory (s : PaintState) : List HistoryEntry :=
  if s.historyStep < (s.history.length : Int) - 1 then
    s.history.take (s.historyStep + 1).toNat
  else s.history

/-- `saveHistoryState(layerId)` (lines 413-433): trim any undone tail,
push a snapshot of the named layer, advance the cursor, and evict the
oldest entry (shifting the cursor back) if the capacity bound is
exceeded. -/
def saveHistoryState (s : PaintState) (layerId : Nat) : PaintState :=
  match findIndex (fun l => l.id == layerId) s.layers with
  | none => s
  | some idx =>
      let layer := s.layers.getD idx defaultLayer
      let h2 := trimHistory s ++ [⟨layerId, layer.surface⟩]
      let step2 := s.historyStep + 1
      if s.maxHistory < h2.length then
        { s with history := h2.drop 1, historyStep := step2 - 1 }
      else
        { s with history := h2, historyStep := step2 }

/-- `addLayer(name)` (lines 161-185): fresh id, blank canvas (white
filled when it is the very first layer), append on top, make active,
record the initial snapshot. -/
def addLayer (s : PaintState) (name : String) : PaintState :=
  let id := s.nextLayerId
  let surf : Surface := if s.layers.length = 0 then whiteSurface else blankSurface
  let s1 := { s with
    nextLayerId := id + 1
    layers := s.layers ++ [⟨id, name, true, surf⟩] }
  let s2 := setActiveLayer s1 id
  saveHistoryState s2 id

/-- The state right after `init()` (line 84): `addLayer("Background")`. -/
def initState : PaintState := addLayer emptyState "Background"

/-- The layer loop shared by `pickColorGlobal` (lines 393-398) and the
flattening step of `processAllLayers` (lines 515-519): each visible
layer is drawn with `drawImage` (source-over) onto the accumulator, in
ascending paint order; invisible layers are skipped. At a single
coordinate this is a fold of `blend` over the layer list. -/
def compositeAt (layers : List Layer) (x y : Nat) (base : RGBA) : RGBA :=
  layers.foldl (fun acc l => if l.visible then blend acc (l.surface x y) else acc) base

/-- `pickColorGlobal(x, y)` (lines 384-405), up to the hex formatting
it hands to the colour picker widget: the 1x1 temp canvas starts fully
transparent (`document.createElement('canvas')` is never filled), each
visible layer's pixel at (x, y) is drawn onto it in order, and the
resulting RGB triple is read back with `getImageData`. -/
def pickColorGlobal (s : PaintState) (x y : Nat) : Nat × Nat × Nat :=
  let c := compositeAt s.layers x y transparentPixel
  (c.r, c.g, c.b)

/-- The pixel at (x, y) of the flattened buffer that `processAllLayers`
builds (lines 504-521): a canvas-sized buffer filled opaque white, then
every visible layer drawn onto it in ascending paint order. -/
def compositePixel (s : PaintState) (x y : Nat) : Nat × Nat × Nat :=
  let c := compositeAt s.layers x y whitePixel
  (c.r, c.g, c.b)

/-- The backward scan of `undo` (lines 451-458): starting at index `i`
and walking down to 0, return the snapshot of the first entry whose
`layerId` matches. A read past the end of the log (impossible on the
paths the source can take, where the scan starts below the cursor)
yields `none`. -/
def findPrev (hist : List HistoryEntry) (lid : Nat) : Nat → Option Surface
  | 0 =>
      match hist[0]? with
      | some e => if e.layerId == lid then some e.dataURL else none
      | none => none
  | i + 1 =>
      match hist[i + 1]? with
      | some e => if e.layerId == lid then some e.dataURL else findPrev hist lid i
      | none => none

/-- The spec's description of the scan target: "the most recent prior
entry whose layerId equals entry.layerId" among indices 0..c, i.e. the
last matching entry of the prefix of length c+1. -/
def lastMatch (hist : List HistoryEntry) (lid : Nat) (c : Nat) : Option Surface :=
  ((hist.take (c + 1)).reverse.find? (fun e => e.layerId == lid)).map (fun e => e.dataURL)

/-- Replace the surface of the first layer whose id matches, exactly as
`state.layers.find(...)` followed by `clearRect` + `drawImage` of the
decoded snapshot does (lines 460-468; the decoded image is drawn onto a
cleared canvas, so by the codec round-trip law the surface becomes the
snapshot contents). -/
def replaceSurfaceFirst : List Layer → Nat → Surface → List Layer
  | [], _, _ => []
  | l :: ls, lid, surf =>
      if l.id == lid then { l with surface := surf } :: ls
      else l :: replaceSurfaceFirst ls lid surf

/-- `undo()` (lines 435-477): no-op below cursor 1; otherwise read the
entry being undone, decrement the cursor, scan backwards from the new
cursor for the nearest prior snapshot of the same layer, and restore it
into that layer's surface when both the snapshot and the layer exist.
The restore itself runs in an `img.onload` callback; per the spec's
single-threaded cooperative model (section 5) the operation is modelled
as running to completion. (When the cursor points past the end of the
log — unreachable from the initial state — the source throws after
having decremented the cursor; the model keeps the decrement.) -/
def undo (s : PaintState) : PaintState :=
  if 0 < s.historyStep then
    match s.history[s.historyStep.toNat]? with
    | none => { s with historyStep := s.historyStep - 1 }
    | some entry =>
        let step' := s.historyStep - 1
        let prevData := findPrev s.history entry.layerId step'.toNat
        let s1 := { s with historyStep := step' }
        match prevData with
        | none => s1
        | some d =>
            if s.layers.any (fun l => l.id == entry.layerId) then
              { s1 with layers := replaceSurfaceFirst s1.layers entry.layerId d }
            else s1
  else s

/-! ### Code compiler (lines 504-561)

`processAllLayers` first flattens the visible layers (modelled above by
`compositePixel`) and then scans the flattened RGB data row-major,
emitting a `fill` line whenever the ink colour changes and a unit
`rect` line for every ink pixel. The scan is embedded over an abstract
flattened buffer so the claims about concrete buffers can be stated. -/

/-- A flattened RGB buffer: (x, y) to the (r, g, b) bytes that
`getImageData` returns (the flattened canvas is fully opaque, so the
alpha byte is irrelevant downstream). -/
abbrev Buffer : Type := Nat → Nat → Nat × Nat × Nat

/-- The running scan state: `lastR/lastG/lastB` start at `-1`
(line 534) and the accumulated `rects` lines (line 535). -/
structure ScanState where
  lastR : Int
  lastG : Int
  lastB : Int
  rects : List String

/-- `let lastR = -1, lastG = -1, lastB = -1; let rects = [];` -/
def initScan : ScanState := ⟨-1, -1, -1, []⟩

/-- The body of the pixel loop (lines 539-553): a pixel is ink when any
channel is below 250; an ink pixel whose colour differs from the
running last colour first emits a `fill` line; every ink pixel emits a
unit `rect` line. -/
def compileStep (buf : Buffer) (st : ScanState) (x y : Nat) : ScanState :=
  let p := buf x y
  let r := p.1
  let g := p.2.1
  let b := p.2.2
  if r < 250 ∨ g < 250 ∨ b < 250 then
    let st1 :=
      if (r : Int) ≠ st.lastR ∨ (g : Int) ≠ st.lastG ∨ (b : Int) ≠ st.lastB then
        { st with
          rects := st.rects ++
            ["  fill(" ++ toString r ++ ", " ++ toString g ++ ", " ++ toString b ++ ");"]
          lastR := (r : Int), lastG := (g : Int), lastB := (b : Int) }
      else st
    { st1 with
      rects := st1.rects ++
        ["  rect(" ++ toString x ++ ", " ++ toString y ++ ", 1);"] }
  else st

/-- The double loop of lines 537-555: `y` outer over the height, `x`
inner over the width. -/
def compileScan (W H : Nat) (buf : Buffer) : ScanState :=
  (List.range H).foldl
    (fun st y => (List.range W).foldl (fun st x => compileStep buf st x y) st)
    initScan

/-- The fixed program header pushed before the scan (lines 525-532). -/
def headerLines (W H : Nat) : List String :=
  ["function setup() \x7b",
   "  createCanvas(" ++ toString W ++ ", " ++ toString H ++ ");",
   "\x7d",
   "",
   "function draw() \x7b",
   "  background(280);",
   "  noStroke();",
   ""]

/-- All emitted lines: header, then the scan's `fill`/`rect` lines,
then the closing brace (lines 557-558). -/
def programLines (W H : Nat) (buf : Buffer) : List String :=
  headerLines W H ++ (compileScan W H buf).rects ++ ["\x7d"]

/-- `lines.join('\n')` (line 560): the full compiled text. -/
def processAllLayersText (W H : Nat) (buf : Buffer) : String :=
  String.intercalate "\n" (programLines W H buf)

/-- The canvas dimensions of `CONFIG` (lines 53-57). -/
def configWidth : Nat := 540

/-- The canvas height of `CONFIG` (lines 53-57). -/
def configHeight : Nat := 540

/-- The complete `processAllLayers()` of the source, tying the flatten
step to the scan at the configured canvas size. -/
def processAllLayers (s : PaintState) : String :=
  processAllLayersText configWidth configHeight (fun x y => compositePixel s x y)

/-! ### Project save/load (lines 575-670) -/

/-- One element of the persisted `layers` array (lines 582-587); `data`
holds the decoded image contents (codec round-trip law, see
`HistoryEntry`). -/
structure ProjLayer where
  id : Nat
  name : String
  visible : Bool
  data : Surface

/-- A parsed project record. `nextLayerId` and `layers` are optional
because `JSON.parse` accepts files in which either field is missing;
the source reads them without validation. -/
structure Project where
  nextLayerId : Option Nat
  layers : Option (List ProjLayer)

/-- `project.nextLayerId || 1` (line 621): JavaScript `||` replaces
both a missing field and the falsy value `0` with `1`. -/
def nextIdOrOne : Option Nat → Nat
  | none => 1
  | some n => if n = 0 then 1 else n

/-- `restoreProject(project)` (lines 616-670) together with a success
flag. The source FIRST removes every existing layer and empties
`state.layers` (lines 618-620), THEN reads `project.layers`; when that
field is absent the `forEach` call throws a TypeError that propagates
to `loadProject`'s catch block, leaving the already-emptied stack in
place — the pair's second component is `false` for that outcome. On the
success path each persisted layer is rebuilt in order and, once every
image has decoded, the last layer becomes active (lines 663-666; when
the persisted array is empty no `onload` ever fires, so the active id
is left untouched). Image decodes are modelled as completing, per the
spec's concurrency model (section 5). -/
def restoreProjectRun (s : PaintState) (p : Project) : PaintState × Bool :=
  let s1 := { s with layers := [], nextLayerId := nextIdOrOne p.nextLayerId }
  match p.layers with
  | none => (s1, false)
  | some ls =>
      let newLayers := ls.map (fun ld => Layer.mk ld.id ld.name ld.visible ld.data)
      let s2 := { s1 with layers := newLayers }
      -- `if (state.layers.length > 0) setActiveLayer(state.layers[length-1].id)`
      -- (lines 664-666); with an empty persisted array no onload ever
      -- fires, so the active id is left untouched.
      if 0 < newLayers.length then
        (setActiveLayer s2 ((newLayers.getD (newLayers.length - 1) defaultLayer).id), true)
      else (s2, true)

/-- The state transition of `restoreProject`. -/
def restoreProject (s : PaintState) (p : Project) : PaintState :=
  (restoreProjectRun s p).1

/-- `loadProject` (lines 597-614), given the outcome of `JSON.parse` on
the chosen file: a parse failure is caught before `restoreProject` is
ever called (state untouched, load reported failed via `alert`); a
parse success hands the record to `restoreProject` inside the same
`try`, so a failure thrown there is also reported via the same `alert`
— but only after `restoreProject` has already mutated the state. -/
def loadProject (s : PaintState) (parsed : Option Project) : PaintState × Bool :=
  match parsed with
  | none => (s, false)
  | some p => restoreProjectRun s p

/-! ### Reachable layer-stack states -/

/-- One externally triggerable layer-stack operation. `setActive` is
dispatched only from the layer-list click handlers, which
`renderLayerList` (lines 220-258) creates exclusively for the ids of
the layers currently in the stack (and every stack mutation re-renders
the list before control returns to the event loop), so the transition
carries that membership fact. Restores are modelled as running to
completion (spec section 5). -/
inductive Step : PaintState → PaintState → Prop
  | add (s : PaintState) (name : String) : Step s (addLayer s name)
  | del (s : PaintState) (id : Nat) : Step s (deleteLayer s id)
  | setActive (s : PaintState) (id : Nat)
      (h : id ∈ s.layers.map (fun l => l.id)) : Step s (setActiveLayer s id)
  | toggle (s : PaintState) (id : Nat) : Step s (toggleLayerVisibility s id)
  | record (s : PaintState) (id : Nat) : Step s (saveHistoryState s id)
  | undoStep (s : PaintState) : Step s (undo s)
  | restore (s : PaintState) (p : Project) : Step s (restoreProject s p)

/-- States reachable from the initialised session through the
layer-stack operations. -/
inductive Reachable : PaintState → Prop
  | init : Reachable initState
  | step {s s' : PaintState} : Reachable s → Step s s' → Reachable s'

/-- The layer-stack invariant of the data model (spec section 3):
whenever the layer sequence is non-empty, `activeLayerId` is the id of
one of its members. -/
def ActiveInv (s : PaintState) : Prop :=
  s.layers ≠ [] → ∃ i ∈ s.layers.map (fun l => l.id), s.activeLayerId = some i

/-! ### Concrete states and buffers used to evaluate the theorems -/

/-- A surface filled with opaque red. -/
def redSurface : Surface := fun _ _ => ⟨255, 0, 0, 255⟩

/-- A session holding the single white background layer, with its
initial snapshot recorded. -/
def oneLayerState : PaintState :=
  { layers := [⟨1, "Background", true, whiteSurface⟩]
    activeLayerId := some 1
    nextLayerId := 2
    history := [⟨1, whiteSurface⟩]
    historyStep := 0
    maxHistory := 20 }

/-- Like `oneLayerState` but with the background layer hidden. -/
def hiddenLayerState : PaintState :=
  { oneLayerState with layers := [⟨1, "Background", false, whiteSurface⟩] }

/-- A session in which layer 1 was recorded white, then painted red and
recorded again: one undo should restore the white snapshot. -/
def undoTestState : PaintState :=
  { layers := [⟨1, "Background", true, redSurface⟩]
    activeLayerId := some 1
    nextLayerId := 2
    history := [⟨1, whiteSurface⟩, ⟨1, redSurface⟩]
    historyStep := 1
    maxHistory := 20 }

/-- A session whose history records a layer (id 99) that is no longer
in the stack. -/
def missingLayerState : PaintState :=
  { layers := [⟨1, "Background", true, whiteSurface⟩]
    activeLayerId := some 1
    nextLayerId := 2
    history := [⟨99, whiteSurface⟩, ⟨99, redSurface⟩]
    historyStep := 1
    maxHistory := 20 }

/-- Character-list prefix test (used to classify emitted lines as
colour-selection or rectangle statements). -/
def charsPre : List Char → List Char → Bool
  | [], _ => true
  | _ :: _, [] => false
  | a :: as, b :: bs => a.toNat == b.toNat && charsPre as bs

/-- `linePre pre l` holds when the line `l` starts with `pre`. -/
def linePre (pre l : String) : Bool := charsPre pre.data l.data

/-- The 3x1 flattened buffer [red, red, blue] of the coalescing claim. -/
def buf3 : Buffer := fun x _ => if x < 2 then (255, 0, 0) else (0, 0, 255)

/-- A constant-black 1x1 buffer. -/
def bufA : Buffer := fun _ _ => (0, 0, 0)

/-- A buffer that agrees with `bufA` on the 1x1 canvas but differs
outside it. -/
def bufB : Buffer := fun x y => if x < 1 ∧ y < 1 then (0, 0, 0) else (7, 7, 7)

/-- A project record that `JSON.parse` accepts but that has no `layers`
array: `restoreProject` throws on it, after clearing the stack. -/
def badProject : Project := ⟨some 5, none⟩

/-! ## Theorems -/

/-- Claim C2, counterexample: on a one-layer stack `deleteLayer` does
leave the state unchanged, but it does not report any blocked-action
condition to the caller — the claim's conjunction fails at this
concrete input. -/
theorem deleteLayer_last_unreported_cex :
    (deleteLayerRun oneLayerState 1).1 = oneLayerState ∧
    ¬ ((deleteLayerRun oneLayerState 1).1 = oneLayerState ∧
       (deleteLayerRun oneLayerState 1).2 = true) := by
  refine ⟨rfl, ?_⟩
  rintro ⟨-, h⟩
  exact absurd h (by decide)

/-- Claim C2, amended: for every state with exactly one layer,
`deleteLayer(id)` leaves the whole state (layers, active selection,
surfaces, history) unchanged, silently — no blocked-action condition is
reported to the caller. -/
theorem deleteLayer_last_noop (s : PaintState) (id : Nat)
    (h : s.layers.length = 1) :
    deleteLayerRun s id = (s, false) := by
  unfold deleteLayerRun
  rw [if_pos (by omega)]

/-- Witness for `deleteLayer_last_noop` at the one-layer session. -/
theorem deleteLayer_last_noop_witness :
    oneLayerState.layers.length = 1 ∧
    deleteLayerRun oneLayerState 7 = (oneLayerState, false) :=
  ⟨rfl, deleteLayer_last_noop oneLayerState 7 rfl⟩

/-- Claim C7: compiling the flattened 3x1 buffer [red, red, blue]
emits exactly two colour-selection statements — red once, then blue
once — and exactly three unit-rectangle statements, because a `fill`
line is emitted only when the ink colour differs from the running last
colour. -/
theorem compile_coalescing_3x1 :
    (compileScan 3 1 buf3).rects =
      ["  fill(255, 0, 0);", "  rect(0, 0, 1);", "  rect(1, 0, 1);",
       "  fill(0, 0, 255);", "  rect(2, 0, 1);"] ∧
    (programLines 3 1 buf3).filter (fun l => linePre "  fill(" l) =
      ["  fill(255, 0, 0);", "  fill(0, 0, 255);"] ∧
    ((programLines 3 1 buf3).filter (fun l => linePre "  rect(" l)).length = 3 := by
  refine ⟨?_, ?_, ?_⟩ <;> rfl

/-- The composite fold visits exactly the visible layers, in order. -/
theorem compositeAt_eq_filter (layers : List Layer) (x y : Nat) :
    ∀ base, compositeAt layers x y base =
      (layers.filter (fun l => l.visible)).foldl
        (fun acc l => blend acc (l.surface x y)) base := by
  induction layers with
  | nil => intro base; rfl
  | cons l ls ih =>
      intro base
      show compositeAt (l :: ls) x y base = _
      unfold compositeAt
      rw [List.foldl_cons, List.filter_cons]
      by_cases h : l.visible
      · simp only [h, if_true]
        rw [List.foldl_cons]
        exact ih (blend base (l.surface x y))
      · simp only [h, if_false, Bool.false_eq_true]
        simpa [h] using ih base

/-- Blending a fully opaque source pixel ignores the destination. -/
theorem blend_opaque (d s : RGBA) (h : s.a = 255) : blend d s = s := by
  obtain ⟨r, g, b, a⟩ := s
  cases h
  unfold blend
  norm_num

/-- Claim C3, counterexample: with the single background layer hidden,
the pipette returns black (it composites onto an unfilled, fully
transparent 1x1 canvas) while the flattened buffer of
`processAllLayers` holds the opaque-white base at the same coordinate. -/
theorem pickColor_ne_composite_cex :
    pickColorGlobal hiddenLayerState 0 0 = (0, 0, 0) ∧
    compositePixel hiddenLayerState 0 0 = (255, 255, 255) ∧
    pickColorGlobal hiddenLayerState 0 0 ≠ compositePixel hiddenLayerState 0 0 := by
  refine ⟨rfl, rfl, by decide⟩

/-- Claim C3, amended: `pickColorGlobal(x, y)` composites the single
1x1 pixel column across the visible layers bottom-to-top over a fully
transparent base, not over the opaque-white base that
`processAllLayers` starts from; it agrees with the flattened buffer at
(x, y) whenever the topmost visible layer is fully opaque there. -/
theorem pickColor_eq_composite_of_top_opaque (s : PaintState) (x y : Nat)
    (pre : List Layer) (top : Layer)
    (hsplit : s.layers.filter (fun l => l.visible) = pre ++ [top])
    (hop : (top.surface x y).a = 255) :
    pickColorGlobal s x y = compositePixel s x y := by
  unfold pickColorGlobal compositePixel
  rw [compositeAt_eq_filter, compositeAt_eq_filter, hsplit,
    List.foldl_append, List.foldl_append]
  simp only [List.foldl_cons, List.foldl_nil, blend_opaque _ _ hop]

/-- Witness for `pickColor_eq_composite_of_top_opaque`: with the opaque
white background layer visible, pipette and flatten agree. -/
theorem pickColor_eq_composite_witness :
    oneLayerState.layers.filter (fun l => l.visible) =
      [] ++ [⟨1, "Background", true, whiteSurface⟩] ∧
    ((⟨1, "Background", true, whiteSurface⟩ : Layer).surface 0 0).a = 255 ∧
    pickColorGlobal oneLayerState 0 0 = compositePixel oneLayerState 0 0 :=
  ⟨rfl, rfl, pickColor_eq_composite_of_top_opaque oneLayerState 0 0 [] _ rfl rfl⟩

/-- Folds agree when the functions agree on the list's members. -/
theorem foldl_congr_mem {α β : Type} (f g : β → α → β) :
    ∀ (l : List α), (∀ a ∈ l, ∀ b, f b a = g b a) →
      ∀ b, l.foldl f b = l.foldl g b := by
  intro l
  induction l with
  | nil => intro _ b; rfl
  | cons a as ih =>
      intro h b
      rw [List.foldl_cons, List.foldl_cons, h a (List.mem_cons_self a as)]
      exact ih (fun a' ha' b' => h a' (List.mem_cons_of_mem a ha') b') _

/-- Claim C8: the compiler is a pure function of the flattened pixel
data — it reads only the pixels inside the canvas, and two buffers that
agree on every in-bounds pixel compile to byte-identical text (in
particular, two compilations of the same buffer are identical). -/
theorem compile_deterministic (W H : Nat) (b1 b2 : Buffer)
    (h : ∀ x, x < W → ∀ y, y < H → b1 x y = b2 x y) :
    processAllLayersText W H b1 = processAllLayersText W H b2 := by
  unfold processAllLayersText programLines
  have hscan : compileScan W H b1 = compileScan W H b2 := by
    unfold compileScan
    apply foldl_congr_mem
    intro y hy st
    apply foldl_congr_mem
    intro x hx st'
    unfold compileStep
    rw [h x (List.mem_range.mp hx) y (List.mem_range.mp hy)]
  rw [hscan]

/-- Witness for `compile_deterministic`: two syntactically different
buffers that agree on the 1x1 canvas compile identically. -/
theorem compile_deterministic_witness :
    processAllLayersText 1 1 bufA = processAllLayersText 1 1 bufB :=
  compile_deterministic 1 1 bufA bufB
    (fun x hx y hy => by simp [bufA, bufB, hx, hy])

/-- Trimming the undone tail never lengthens the log. -/
theorem trimHistory_length_le (s : PaintState) :
    (trimHistory s).length ≤ s.history.length := by
  unfold trimHistory
  split
  · rw [List.length_take]
    omega
  · exact le_rfl

/-- `saveHistoryState` touches only the history fields. -/
theorem saveHistoryState_fields (s : PaintState) (lid : Nat) :
    (saveHistoryState s lid).maxHistory = s.maxHistory ∧
    (saveHistoryState s lid).layers = s.layers ∧
    (saveHistoryState s lid).activeLayerId = s.activeLayerId := by
  unfold saveHistoryState
  split
  · exact ⟨rfl, rfl, rfl⟩
  · dsimp only
    split <;> exact ⟨rfl, rfl, rfl⟩

/-- One `record` call keeps the log within the capacity bound. -/
theorem saveHistoryState_length_le (s : PaintState) (lid : Nat)
    (h : s.history.length ≤ s.maxHistory) :
    (saveHistoryState s lid).history.length ≤ s.maxHistory := by
  have htrim := trimHistory_length_le s
  unfold saveHistoryState
  split
  · exact h
  · dsimp only
    split
    · rename_i hover
      simp only [List.length_drop, List.length_append, List.length_singleton]
      omega
    · rename_i hok
      simp only [not_lt, List.length_append, List.length_singleton] at hok
      simpa using hok

/-- Claim C4: for every sequence of `record` calls on any mix of
layers, the log length never exceeds `maxHistory`; and whenever an
append would exceed the bound, the oldest entry is evicted (the head of
the appended log is dropped) and the cursor is decremented by one
relative to the append, leaving it at its pre-call position. -/
theorem history_capacity (s : PaintState) (ids : List Nat)
    (h : s.history.length ≤ s.maxHistory) :
    ((ids.foldl saveHistoryState s).history.length ≤ s.maxHistory ∧
     (ids.foldl saveHistoryState s).maxHistory = s.maxHistory) ∧
    (∀ lid idx, findIndex (fun l => l.id == lid) s.layers = some idx →
      s.maxHistory <
        (trimHistory s ++
          [HistoryEntry.mk lid (s.layers.getD idx defaultLayer).surface]).length →
      (saveHistoryState s lid).history =
        (trimHistory s ++
          [HistoryEntry.mk lid (s.layers.getD idx defaultLayer).surface]).drop 1 ∧
      (saveHistoryState s lid).historyStep = s.historyStep + 1 - 1) := by
  constructor
  · induction ids generalizing s with
    | nil => exact ⟨h, rfl⟩
    | cons a as ih =>
        rw [List.foldl_cons]
        have hmax := (saveHistoryState_fields s a).1
        have hlen : (saveHistoryState s a).history.length ≤
            (saveHistoryState s a).maxHistory := by
          rw [hmax]; exact saveHistoryState_length_le s a h
        have := ih (saveHistoryState s a) hlen
        rw [hmax] at this
        exact this
  · intro lid idx hfind hover
    unfold saveHistoryState
    rw [hfind]
    dsimp only
    rw [if_pos hover]
    exact ⟨rfl, rfl⟩

/-- Witness for `history_capacity`: three records on the one-layer
session stay within the default bound of 20. -/
theorem history_capacity_witness :
    oneLayerState.history.length ≤ oneLayerState.maxHistory ∧
    (([1, 1, 1] : List Nat).foldl saveHistoryState oneLayerState).history.length ≤
      oneLayerState.maxHistory :=
  ⟨by decide, ((history_capacity oneLayerState [1, 1, 1] (by decide)).1).1⟩

/-- Scanning one position further, onto a matching entry, finds that
entry's snapshot. -/
theorem lastMatch_succ_pos (hist : List HistoryEntry) (lid c : Nat)
    (e : HistoryEntry) (he : hist[c + 1]? = some e)
    (hp : (e.layerId == lid) = true) :
    lastMatch hist lid (c + 1) = some e.dataURL := by
  unfold lastMatch
  rw [List.take_succ, he, Option.toList_some, List.reverse_append,
    List.reverse_singleton, List.singleton_append,
    @List.find?_cons_of_pos HistoryEntry (fun e => e.layerId == lid) e
      (List.take (c + 1) hist).reverse hp]
  rfl

/-- Scanning one position further, onto a non-matching entry, finds
whatever the shorter scan finds. -/
theorem lastMatch_succ_neg (hist : List HistoryEntry) (lid c : Nat)
    (e : HistoryEntry) (he : hist[c + 1]? = some e)
    (hp : ¬ (e.layerId == lid) = true) :
    lastMatch hist lid (c + 1) = lastMatch hist lid c := by
  unfold lastMatch
  rw [List.take_succ, he, Option.toList_some, List.reverse_append,
    List.reverse_singleton, List.singleton_append,
    @List.find?_cons_of_neg HistoryEntry (fun e => e.layerId == lid) e
      (List.take (c + 1) hist).reverse hp]

/-- The backward `for` loop of `undo` computes exactly the spec's
"most recent prior entry with the same layerId": the last match in the
prefix ending at the scan start. -/
theorem findPrev_eq_lastMatch (hist : List HistoryEntry) (lid : Nat) :
    ∀ c, c < hist.length → findPrev hist lid c = lastMatch hist lid c := by
  intro c
  induction c with
  | zero =>
      intro hc
      have h0 : hist[0]? = some (hist.get ⟨0, hc⟩) := List.getElem?_eq_getElem hc
      unfold findPrev lastMatch
      rw [h0, List.take_succ, h0, Option.toList_some]
      rw [show List.take 0 hist = [] from rfl, List.nil_append,
        List.reverse_singleton]
      by_cases hp : ((hist.get ⟨0, hc⟩).layerId == lid) = true
      · rw [@List.find?_cons_of_pos HistoryEntry (fun e => e.layerId == lid)
          (hist.get ⟨0, hc⟩) [] hp]
        dsimp only
        rw [if_pos hp]
        rfl
      · rw [@List.find?_cons_of_neg HistoryEntry (fun e => e.layerId == lid)
          (hist.get ⟨0, hc⟩) [] hp]
        dsimp only
        rw [if_neg hp, List.find?_nil]
        rfl
  | succ n ih =>
      intro hc
      have hn : n < hist.length := Nat.lt_of_succ_lt hc
      have h1 : hist[n + 1]? = some (hist.get ⟨n + 1, hc⟩) :=
        List.getElem?_eq_getElem hc
      unfold findPrev
      rw [h1]
      dsimp only
      by_cases hp : ((hist.get ⟨n + 1, hc⟩).layerId == lid) = true
      · rw [if_pos hp, lastMatch_succ_pos hist lid n _ h1 hp]
      · rw [if_neg hp, ih hn, lastMatch_succ_neg hist lid n _ h1 hp]

/-- Claim C5: `undo()` is a no-op when the cursor is at or below 0;
otherwise, with `e` the entry at the cursor, it decrements the cursor,
leaves the log itself untouched, and — scanning the indices from the
new cursor down to 0 for the most recent prior entry with the same
layerId — restores that layer's surface to the found snapshot, or
leaves every layer unchanged when no prior snapshot exists. -/
theorem undo_correct (s : PaintState) :
    (s.historyStep ≤ 0 → undo s = s) ∧
    (∀ e, 0 < s.historyStep → s.history[s.historyStep.toNat]? = some e →
      (undo s).historyStep = s.historyStep - 1 ∧
      (undo s).history = s.history ∧
      (lastMatch s.history e.layerId (s.historyStep - 1).toNat = none →
        (undo s).layers = s.layers) ∧
      (∀ d, lastMatch s.history e.layerId (s.historyStep - 1).toNat = some d →
        s.layers.any (fun l => l.id == e.layerId) = true →
        (undo s).layers = replaceSurfaceFirst s.layers e.layerId d)) := by
  constructor
  · intro h
    unfold undo
    rw [if_neg (by omega)]
  · intro e h0 he
    have hlt : s.historyStep.toNat < s.history.length := by
      have := (List.getElem?_eq_some.mp he).1
      exact this
    have hscan : findPrev s.history e.layerId (s.historyStep - 1).toNat =
        lastMatch s.history e.layerId (s.historyStep - 1).toNat := by
      apply findPrev_eq_lastMatch
      omega
    unfold undo
    rw [if_pos h0, he]
    dsimp only
    rw [hscan]
    refine ⟨?_, ?_, ?_, ?_⟩
    · cases hm : lastMatch s.history e.layerId (s.historyStep - 1).toNat with
      | none => rfl
      | some d =>
          dsimp only
          split <;> rfl
    · cases hm : lastMatch s.history e.layerId (s.historyStep - 1).toNat with
      | none => rfl
      | some d =>
          dsimp only
          split <;> rfl
    · intro hm
      rw [hm]
    · intro d hm hany
      rw [hm]
      dsimp only
      rw [if_pos hany]

/-- Witness for `undo_correct`: undoing the red stroke on the recorded
session restores the white snapshot and moves the cursor back. -/
theorem undo_correct_witness :
    (undo undoTestState).historyStep = undoTestState.historyStep - 1 ∧
    (undo undoTestState).layers =
      replaceSurfaceFirst undoTestState.layers 1 whiteSurface := by
  have h := (undo_correct undoTestState).2 ⟨1, redSurface⟩ (by decide) rfl
  exact ⟨h.1, h.2.2.2 whiteSurface rfl rfl⟩

/-- Replacing one layer's surface keeps the stack's length. -/
theorem replaceSurfaceFirst_length (lid : Nat) (surf : Surface) :
    ∀ ls : List Layer, (replaceSurfaceFirst ls lid surf).length = ls.length := by
  intro ls
  induction ls with
  | nil => rfl
  | cons l ls ih =>
      unfold replaceSurfaceFirst
      by_cases h : (l.id == lid) = true
      · rw [if_pos h]
        simp
      · rw [if_neg h]
        simpa using ih

/-- A layer at a position whose id differs from the target id is left
untouched by the surface replacement. -/
theorem replaceSurfaceFirst_getD_ne (lid : Nat) (surf : Surface) :
    ∀ (ls : List Layer) (i : Nat),
      (ls.getD i defaultLayer).id ≠ lid →
      (replaceSurfaceFirst ls lid surf).getD i defaultLayer =
        ls.getD i defaultLayer := by
  intro ls
  induction ls with
  | nil => intro i _; rfl
  | cons l ls ih =>
      intro i hne
      unfold replaceSurfaceFirst
      by_cases h : (l.id == lid) = true
      · rw [if_pos h]
        cases i with
        | zero => exact absurd (by simpa using h) hne
        | succ j => rfl
      · rw [if_neg h]
        cases i with
        | zero => rfl
        | succ j => exact ih j hne

/-- Claim C6: `undo` never affects layers other than the one named by
the entry being undone — any layer at a position whose id differs from
`e.layerId` keeps its exact value (surface, visibility, name) and its
position, and the stack's length is unchanged. -/
theorem undo_frame (s : PaintState) (e : HistoryEntry)
    (h0 : 0 < s.historyStep)
    (he : s.history[s.historyStep.toNat]? = some e) :
    (undo s).layers.length = s.layers.length ∧
    ∀ i, (s.layers.getD i defaultLayer).id ≠ e.layerId →
      (undo s).layers.getD i defaultLayer = s.layers.getD i defaultLayer := by
  unfold undo
  rw [if_pos h0, he]
  dsimp only
  cases hm : findPrev s.history e.layerId (s.historyStep - 1).toNat with
  | none => exact ⟨rfl, fun _ _ => rfl⟩
  | some d =>
      dsimp only
      by_cases hany : (s.layers.any (fun l => l.id == e.layerId)) = true
      · rw [if_pos hany]
        exact ⟨replaceSurfaceFirst_length e.layerId d s.layers,
          fun i hi => replaceSurfaceFirst_getD_ne e.layerId d s.layers i hi⟩
      · rw [if_neg hany]
        exact ⟨rfl, fun _ _ => rfl⟩

/-- Witness for `undo_frame` at the session whose history names a
deleted layer: the remaining layer (id 1, position 0) is untouched. -/
theorem undo_frame_witness :
    (undo missingLayerState).layers.length = missingLayerState.layers.length ∧
    (undo missingLayerState).layers.getD 0 defaultLayer =
      missingLayerState.layers.getD 0 defaultLayer := by
  have h := undo_frame missingLayerState ⟨99, redSurface⟩ (by decide) rfl
  exact ⟨h.1, h.2 0 (by decide)⟩

/-- Claim C10: when the entry being undone names a layer that is no
longer in the stack, `undo` still decrements the cursor, modifies no
surface and reports nothing: the history position is consumed silently
(the whole state except the cursor is unchanged). -/
theorem undo_missing_layer (s : PaintState) (e : HistoryEntry)
    (h0 : 0 < s.historyStep)
    (he : s.history[s.historyStep.toNat]? = some e)
    (hml : s.layers.any (fun l => l.id == e.layerId) = false) :
    undo s = { s with historyStep := s.historyStep - 1 } := by
  unfold undo
  rw [if_pos h0, he]
  dsimp only
  cases hm : findPrev s.history e.layerId (s.historyStep - 1).toNat with
  | none => rfl
  | some d =>
      dsimp only
      rw [if_neg (by rw [hml]; exact Bool.false_ne_true)]

/-- Witness for `undo_missing_layer`: undoing while the recorded layer
99 is absent only moves the cursor. -/
theorem undo_missing_layer_witness :
    undo missingLayerState =
      { missingLayerState with historyStep := missingLayerState.historyStep - 1 } :=
  undo_missing_layer missingLayerState ⟨99, redSurface⟩ (by decide) rfl rfl

/-- Claim C1 (evaluation of the defect): a `JSON.parse` failure does
leave the state untouched, but a project record that parses and then
fails validation (here: no `layers` array) is reported as a failed load
only AFTER `restoreProject` has already emptied the layer stack — the
prior state is destroyed, not preserved. -/
theorem loadProject_wipes_state_on_invalid_project :
    (loadProject oneLayerState none).1 = oneLayerState ∧
    (loadProject oneLayerState (some badProject)).2 = false ∧
    (loadProject oneLayerState (some badProject)).1.layers = [] ∧
    oneLayerState.layers ≠ [] := by
  refine ⟨rfl, rfl, rfl, ?_⟩
  intro h
  exact List.noConfusion h

/-- An in-range `getD` is a member of the list. -/
theorem getD_mem {α : Type} (l : List α) (i : Nat) (d : α)
    (h : i < l.length) : l.getD i d ∈ l := by
  simp only [List.getD, List.get?_eq_getElem?, List.getElem?_eq_getElem h,
    Option.getD_some]
  exact List.getElem_mem h

/-- `findIndex` returns an in-range index whose element satisfies the
predicate. -/
theorem findIndex_some {α : Type} (p : α → Bool) :
    ∀ (l : List α) (i : Nat), findIndex p l = some i →
      i < l.length ∧ ∀ d, p (l.getD i d) = true := by
  intro l
  induction l with
  | nil => intro i h; exact Option.noConfusion h
  | cons a as ih =>
      intro i h
      unfold findIndex at h
      by_cases hp : p a = true
      · rw [if_pos hp] at h
        cases h
        exact ⟨Nat.succ_pos _, fun d => hp⟩
      · rw [if_neg hp] at h
        cases hj : findIndex p as with
        | none => rw [hj] at h; exact absurd h (by simp)
        | some j =>
            rw [hj] at h
            simp only [Option.map_some'] at h
            cases h
            obtain ⟨h1, h2⟩ := ih j hj
            exact ⟨by simpa using Nat.succ_lt_succ h1, fun d => h2 d⟩

/-- Erasing an index commutes with mapping. -/
theorem map_eraseIdx {α β : Type} (f : α → β) :
    ∀ (l : List α) (i : Nat), (l.eraseIdx i).map f = (l.map f).eraseIdx i := by
  intro l
  induction l with
  | nil => intro i; cases i <;> rfl
  | cons a as ih =>
      intro i
      cases i with
      | zero => rfl
      | succ j =>
          simp only [List.eraseIdx_cons_succ, List.map_cons]
          rw [ih j]

/-- Membership survives erasure of a position holding a different
value. -/
theorem mem_eraseIdx_of_getD_ne {α : Type} (d : α) :
    ∀ (l : List α) (i : Nat) (a : α), a ∈ l → l.getD i d ≠ a →
      a ∈ l.eraseIdx i := by
  intro l
  induction l with
  | nil => intro i a ha _; cases ha
  | cons x xs ih =>
      intro i a ha hne
      cases i with
      | zero =>
          rw [List.eraseIdx_cons_zero]
          rcases List.mem_cons.mp ha with h | h
          · exact absurd h.symm (by simpa using hne)
          · exact h
      | succ j =>
          rw [List.eraseIdx_cons_succ]
          rcases List.mem_cons.mp ha with h | h
          · exact h ▸ List.mem_cons_self x _
          · exact List.mem_cons_of_mem x (ih j a h (by simpa using hne))

/-- Toggling visibility does not change the stack's id sequence. -/
theorem toggleFirst_ids :
    ∀ (ls : List Layer) (id : Nat),
      (toggleFirst ls id).map (fun l => l.id) = ls.map (fun l => l.id) := by
  intro ls id
  induction ls with
  | nil => rfl
  | cons l ls ih =>
      unfold toggleFirst
      by_cases h : (l.id == id) = true
      · rw [if_pos h]
        rfl
      · rw [if_neg h]
        simp only [List.map_cons]
        rw [ih]

/-- Restoring a snapshot does not change the stack's id sequence. -/
theorem replaceSurfaceFirst_ids (lid : Nat) (surf : Surface) :
    ∀ ls : List Layer,
      (replaceSurfaceFirst ls lid surf).map (fun l => l.id) =
        ls.map (fun l => l.id) := by
  intro ls
  induction ls with
  | nil => rfl
  | cons l ls ih =>
      unfold replaceSurfaceFirst
      by_cases h : (l.id == lid) = true
      · rw [if_pos h]
        rfl
      · rw [if_neg h]
        simp only [List.map_cons]
        rw [ih]

/-- `undo` keeps the active selection and the stack's id sequence. -/
theorem undo_active_ids (s : PaintState) :
    (undo s).activeLayerId = s.activeLayerId ∧
    (undo s).layers.map (fun l => l.id) = s.layers.map (fun l => l.id) := by
  unfold undo
  split
  · split
    · exact ⟨rfl, rfl⟩
    · dsimp only
      split
      · exact ⟨rfl, rfl⟩
      · split
        · exact ⟨rfl, replaceSurfaceFirst_ids _ _ _⟩
        · exact ⟨rfl, rfl⟩
  · exact ⟨rfl, rfl⟩

/-- `saveHistoryState` preserves the invariant. -/
theorem activeInv_saveHistoryState (s : PaintState) (lid : Nat)
    (h : ActiveInv s) : ActiveInv (saveHistoryState s lid) := by
  intro hne
  obtain ⟨-, hl, ha⟩ := saveHistoryState_fields s lid
  rw [hl, ha]
  exact h (by rwa [hl] at hne)

/-- `setActiveLayer` with a member id establishes the invariant. -/
theorem activeInv_setActiveLayer (s : PaintState) (id : Nat)
    (h : id ∈ s.layers.map (fun l => l.id)) :
    ActiveInv (setActiveLayer s id) :=
  fun _ => ⟨id, h, rfl⟩

/-- `addLayer` establishes the invariant unconditionally. -/
theorem activeInv_addLayer (s : PaintState) (name : String) :
    ActiveInv (addLayer s name) := by
  unfold addLayer
  apply activeInv_saveHistoryState
  apply activeInv_setActiveLayer
  simp

/-- `toggleLayerVisibility` preserves the invariant. -/
theorem activeInv_toggle (s : PaintState) (id : Nat) (h : ActiveInv s) :
    ActiveInv (toggleLayerVisibility s id) := by
  intro hne
  unfold toggleLayerVisibility
  dsimp only
  rw [toggleFirst_ids]
  apply h
  intro h0
  apply hne
  unfold toggleLayerVisibility
  dsimp only
  rw [h0]
  rfl

/-- `undo` preserves the invariant. -/
theorem activeInv_undo (s : PaintState) (h : ActiveInv s) :
    ActiveInv (undo s) := by
  intro hne
  obtain ⟨ha, hids⟩ := undo_active_ids s
  rw [ha, hids]
  apply h
  intro h0
  apply hne
  have : (undo s).layers.map (fun l => l.id) = [] := by rw [hids, h0]; rfl
  exact List.map_eq_nil_iff.mp this

/-- `deleteLayer` preserves the invariant. -/
theorem activeInv_deleteLayer (s : PaintState) (id : Nat) (h : ActiveInv s) :
    ActiveInv (deleteLayer s id) := by
  unfold deleteLayer deleteLayerRun
  by_cases hlen : s.layers.length ≤ 1
  · rw [if_pos hlen]
    exact h
  · rw [if_neg hlen]
    cases hf : findIndex (fun l => l.id == id) s.layers with
    | none => exact h
    | some idx =>
        obtain ⟨hidx, hp⟩ := findIndex_some _ s.layers idx hf
        have hplain : (s.layers.getD idx defaultLayer).id = id := by
          have := hp defaultLayer
          simpa using this
        have herase : (s.layers.eraseIdx idx).length = s.layers.length - 1 :=
          List.length_eraseIdx_of_lt hidx
        dsimp only
        by_cases hact : s.activeLayerId = some id
        · rw [if_pos hact]
          apply activeInv_setActiveLayer
          apply List.mem_map_of_mem
          apply getD_mem
          dsimp only
          rw [herase]
          omega
        · rw [if_neg hact]
          intro hne
          obtain ⟨i, hi, ha⟩ := h (by
            intro h0
            rw [h0] at hlen
            exact hlen (by simp))
          refine ⟨i, ?_, ha⟩
          rw [map_eraseIdx]
          apply mem_eraseIdx_of_getD_ne 0 _ idx i hi
          have h1 : (s.layers.map (fun l => l.id)).getD idx 0 =
              ((s.layers.getD idx defaultLayer).id) := by
            simp only [List.getD, List.get?_eq_getElem?,
              List.getElem?_eq_getElem hidx,
              List.getElem?_eq_getElem
                (show idx < (s.layers.map (fun l => l.id)).length by
                  simpa using hidx),
              Option.getD_some, List.getElem_map]
          rw [h1, hplain]
          intro hcontra
          apply hact
          rw [hcontra]
          exact ha

/-- `restoreProject` establishes the invariant on its own. -/
theorem activeInv_restoreProject (s : PaintState) (p : Project) :
    ActiveInv (restoreProject s p) := by
  unfold restoreProject restoreProjectRun
  cases p.layers with
  | none =>
      intro hne
      exact absurd rfl hne
  | some ls =>
      dsimp only
      by_cases hlen :
          0 < (ls.map (fun ld => Layer.mk ld.id ld.name ld.visible ld.data)).length
      · rw [if_pos hlen]
        apply activeInv_setActiveLayer
        apply List.mem_map_of_mem
        apply getD_mem
        dsimp only
        omega
      · rw [if_neg hlen]
        intro hne
        have h0 :
            (ls.map (fun ld => Layer.mk ld.id ld.name ld.visible ld.data)).length
              = 0 := by omega
        exact absurd (List.length_eq_zero.mp h0) hne

/-- Claim C9: in every state reachable through the layer-stack
operations, whenever the layer sequence is non-empty, `activeLayerId`
references a member of the sequence. -/
theorem active_layer_invariant (s : PaintState) (h : Reachable s) :
    ActiveInv s := by
  induction h with
  | init => exact activeInv_addLayer emptyState "Background"
  | step _ hs ih =>
      cases hs with
      | add name => exact activeInv_addLayer _ name
      | del id => exact activeInv_deleteLayer _ id ih
      | setActive id hmem => exact activeInv_setActiveLayer _ id hmem
      | toggle id => exact activeInv_toggle _ id ih
      | record id => exact activeInv_saveHistoryState _ id ih
      | undoStep => exact activeInv_undo _ ih
      | restore p => exact activeInv_restoreProject _ p

/-- Witness for `active_layer_invariant`: after initialisation and an
attempted delete of the only layer, the invariant holds. -/
theorem active_layer_invariant_witness : ActiveInv (deleteLayer initState 1) :=
  active_layer_invariant (deleteLayer initState 1)
    (Reachable.step Reachable.init (Step.del initState 1))

end PaintCoder



